import Mathlib

set_option linter.unusedVariables false

/-!
Verification of `nova/compute/provider_tree.py`: a shallow embedding of the
`_Provider` / `ProviderTree` data structures and their operations, together
with theorems settling the specification claims about them.

Modelling conventions:
* Python dicts are modelled as association lists in insertion order
  (`dget` is `d[k]` / `d.get(k)`; dict assignment replaces in place when the
  key exists and appends otherwise, matching CPython semantics).
* Python sets are modelled by lists, used only through membership.
* Mutation of a node found by recursive search is modelled by a combined
  locate-and-rebuild traversal (`findUpd`) that follows exactly the search
  order of `_Provider.find` and returns both the located node (pre-mutation,
  as the Python reference would be) and the rebuilt tree.
* All `ValueError` / `KeyError` raise sites are modelled by the `Err` type,
  one constructor per distinguishable failure described in the spec.
* The tree lock only serializes operations; the sequential semantics is
  embedded directly.
-/

/-- Scalar values stored in inventory records.  Only equality on them is ever
used by the code, so the exact carrier is irrelevant; numbers and strings
cover the values appearing in the spec scenarios. -/
inductive Scalar : Type where
  | int (n : Int)
  | str (s : String)
deriving DecidableEq

/-- Python `d.get(key)` / `d[key]` on a dict modelled as an association list:
returns the value at the first occurrence of the key. -/
def dget {α : Type} : List (String × α) → String → Option α
  | [], _ => none
  | (k, v) :: rest, key => if k = key then some v else dget rest key

/-- Python `key in d`. -/
def dhasKey {α : Type} (l : List (String × α)) (k : String) : Bool :=
  (dget l k).isSome

/-- A real Python dict never has duplicate keys; association lists produced
by dict operations satisfy this, and theorems quantifying over raw
association lists assume it explicitly. -/
abbrev NodupKeys {α : Type} (l : List (String × α)) : Prop :=
  (l.map Prod.fst).Nodup

/-- An inventory record: a dict from field name to scalar value. -/
abbrev InvRecord := List (String × Scalar)

/-- A provider inventory: a dict from resource-class name to inventory
record. -/
abbrev Inventory := List (String × InvRecord)

/-- `set(cur) != set(new)` negated: the two dicts have the same key set. -/
def sameKeySet (a b : Inventory) : Bool :=
  a.all (fun kv => dhasKey b kv.1) && b.all (fun kv => dhasKey a kv.1)

/-- Inner loop of `_Provider.has_inventory_changed` (lines 129-140): a field
of the current record is compared only when it is also present in the new
record. -/
def recordChanged (curRec newRec : InvRecord) : Bool :=
  curRec.any fun fv =>
    match dget newRec fv.1 with
    | none => false
    | some nv => nv ≠ fv.2

/-- `_Provider.has_inventory_changed` (lines 122-141). -/
def hasInventoryChanged (cur new : Inventory) : Bool :=
  if sameKeySet cur new then
    cur.any fun kv =>
      match dget new kv.1 with
      | none => false  -- unreachable: key sets are equal at this point
      | some newRec => recordChanged kv.2 newRec
  else true

/-- A resource provider node (`_Provider`).  `children` is the dict keyed by
child uuid, kept in insertion order with the children as values (the key of
an entry is always the child's own uuid, as installed by `add_child`). -/
inductive Provider : Type where
  | mk (uuid : String) (name : String) (generation : Option Int)
       (parentUuid : Option String) (children : List Provider)
       (inventory : Inventory) (traits : List String)
       (aggregates : List String)

def Provider.uuid : Provider → String
  | .mk u _ _ _ _ _ _ _ => u

def Provider.name : Provider → String
  | .mk _ n _ _ _ _ _ _ => n

def Provider.generation : Provider → Option Int
  | .mk _ _ g _ _ _ _ _ => g

def Provider.parentUuid : Provider → Option String
  | .mk _ _ _ pu _ _ _ _ => pu

def Provider.children : Provider → List Provider
  | .mk _ _ _ _ cs _ _ _ => cs

def Provider.inventory : Provider → Inventory
  | .mk _ _ _ _ _ inv _ _ => inv

def Provider.traits : Provider → List String
  | .mk _ _ _ _ _ _ tr _ => tr

def Provider.aggregates : Provider → List String
  | .mk _ _ _ _ _ _ _ ag => ag

def Provider.setChildren : Provider → List Provider → Provider
  | .mk u n g pu _ inv tr ag, cs => .mk u n g pu cs inv tr ag

def Provider.setGeneration : Provider → Option Int → Provider
  | .mk u n _ pu cs inv tr ag, g => .mk u n g pu cs inv tr ag

def Provider.setInventory : Provider → Inventory → Provider
  | .mk u n g pu cs _ tr ag, inv => .mk u n g pu cs inv tr ag

/-- `_Provider.__init__` (lines 50-65): fresh node with empty children,
inventory, traits and aggregates.  The source generates a fresh UUID when
`uuid` is passed as `None`; in this model every construction site passes the
uuid explicitly (`new_child` threads the generated value as a parameter). -/
def Provider.make (name uuid : String) (generation : Option Int)
    (parentUuid : Option String) : Provider :=
  .mk uuid name generation parentUuid [] [] [] []

/-- `_Provider.has_inventory_changed`, as a method. -/
def Provider.hasInvChanged (p : Provider) (new : Inventory) : Bool :=
  hasInventoryChanged p.inventory new

/-- `_Provider._update_generation` (lines 143-152). -/
def Provider.updateGeneration (p : Provider) (g : Option Int) : Provider :=
  match g with
  | none => p
  | some v => if some v = p.generation then p else p.setGeneration (some v)

/-- `_Provider.update_inventory` (lines 154-163): update the generation, then
replace the inventory (by a deep copy, which is the identity here) iff it
changed; return whether it changed. -/
def Provider.updateInventory (p : Provider) (inv : Inventory)
    (g : Option Int) : Provider × Bool :=
  let p1 := p.updateGeneration g
  if p1.hasInvChanged inv then (p1.setInventory inv, true) else (p1, false)

/-- `_Provider.add_child` (lines 111-112): `self.children[provider.uuid] =
provider`.  Dict assignment replaces the entry in place when the key is
already present (dict keys are unique) and appends otherwise. -/
def Provider.addChild (p c : Provider) : Provider :=
  if p.children.any (fun x => x.uuid = c.uuid) then
    p.setChildren (p.children.map fun x => if x.uuid = c.uuid then c else x)
  else
    p.setChildren (p.children ++ [c])

/-- `_Provider.remove_child` (lines 114-116): delete `children[c.uuid]` when
present, no-op otherwise. -/
def Provider.removeChild (p c : Provider) : Provider :=
  p.setChildren (p.children.eraseP (fun x => decide (x.uuid = c.uuid)))

mutual

/-- The DFS listing of a subtree: the node itself followed by the listings of
its children in insertion order.  `get_provider_uuids` (lines 88-93) is the
uuid image of this list (the source builds a set; only membership of that
set is ever used). -/
def Provider.nodeList : Provider → List Provider
  | .mk u n g pu cs inv tr ag =>
    .mk u n g pu cs inv tr ag :: Provider.nodeListL cs

def Provider.nodeListL : List Provider → List Provider
  | [] => []
  | c :: rest => Provider.nodeList c ++ Provider.nodeListL rest

end

/-- `_Provider.get_provider_uuids`: uuids of the node and all descendants. -/
def Provider.getProviderUuids (p : Provider) : List String :=
  p.nodeList.map Provider.uuid

mutual

/-- Structural equality of providers, standing in for Python object identity
in `roots.remove(found)`: the removed object is the one the search returned,
which structurally equals it. -/
def Provider.beq : Provider → Provider → Bool
  | .mk u1 n1 g1 pu1 cs1 inv1 tr1 ag1, .mk u2 n2 g2 pu2 cs2 inv2 tr2 ag2 =>
    u1 = u2 && n1 = n2 && decide (g1 = g2) && decide (pu1 = pu2) &&
    Provider.beqL cs1 cs2 && decide (inv1 = inv2) && decide (tr1 = tr2) &&
    decide (ag1 = ag2)

def Provider.beqL : List Provider → List Provider → Bool
  | [], [] => true
  | c1 :: r1, c2 :: r2 => Provider.beq c1 c2 && Provider.beqL r1 r2
  | _, _ => false

end

/-- First element of the list satisfying `pred`, returned together with the
list rebuilt with that element transformed by `f` in place.  Used for the
`children[search]` direct dict hit of `find` and for locating a root. -/
def updFirst (pred : Provider → Bool) (f : Provider → Provider) :
    List Provider → Option (Provider × List Provider)
  | [] => none
  | c :: rest =>
    if pred c then some (c, f c :: rest)
    else (updFirst pred f rest).map fun q => (q.1, c :: q.2)

mutual

/-- `_Provider.find` (lines 95-109) as a locate-and-rebuild traversal: the
result is the found node (as the Python reference) together with the subtree
rebuilt with `f` applied to that node (Python mutates the node in place
through the reference).  Search order, exactly as in the source: the node
itself by name or uuid; then the children dict by uuid (direct lookup); then
each child in insertion order, first by name, then recursively. -/
def Provider.findUpd (f : Provider → Provider) (search : String) :
    Provider → Option (Provider × Provider)
  | .mk u n g pu cs inv tr ag =>
    if n = search ∨ u = search then
      some (.mk u n g pu cs inv tr ag, f (.mk u n g pu cs inv tr ag))
    else
      match updFirst (fun c => c.uuid = search) f cs with
      | some q => some (q.1, .mk u n g pu q.2 inv tr ag)
      | none =>
        (Provider.findUpdL f search cs).map fun q =>
          (q.1, .mk u n g pu q.2 inv tr ag)

def Provider.findUpdL (f : Provider → Provider) (search : String) :
    List Provider → Option (Provider × List Provider)
  | [] => none
  | c :: rest =>
    if c.name = search then some (c, f c :: rest)
    else
      match Provider.findUpd f search c with
      | some q => some (q.1, q.2 :: rest)
      | none => (Provider.findUpdL f search rest).map fun q => (q.1, c :: q.2)

end

/-- `_Provider.find`: the located node only. -/
def Provider.find (p : Provider) (search : String) : Option Provider :=
  (Provider.findUpd id search p).map Prod.fst

/-- `ProviderTree._find_with_lock` (lines 368-373) as locate-and-rebuild over
the roots in insertion order; `none` models the `ValueError` raise. -/
def findUpdRoots (f : Provider → Provider) (search : String) :
    List Provider → Option (Provider × List Provider)
  | [] => none
  | r :: rest =>
    match Provider.findUpd f search r with
    | some q => some (q.1, q.2 :: rest)
    | none => (findUpdRoots f search rest).map fun q => (q.1, r :: q.2)

/-- The forest container (`ProviderTree`).  The lock field is omitted: it
only serializes the public operations, whose sequential semantics is
embedded. -/
structure ProviderTree where
  roots : List Provider

/-- The DFS listing of the whole forest. -/
def ProviderTree.nodes (t : ProviderTree) : List Provider :=
  Provider.nodeListL t.roots

/-- All uuids in the forest, in DFS order (with multiplicity). -/
def ProviderTree.uuids (t : ProviderTree) : List String :=
  t.nodes.map Provider.uuid

/-- The failure surface: one constructor per distinguishable raise site
(`ValueError` / `KeyError` in the source; the spec names them NotFound,
AlreadyExists, OrphanInput, InternalInvariant). -/
inductive Err : Type where
  | notFound
  | alreadyExists
  | orphanInput (missing : List String)
  | internalInvariant
  | keyError (key : String)
deriving DecidableEq

/-- `ProviderTree._find_with_lock`: the located node, `none` for the raise. -/
def ProviderTree.findWithLock (t : ProviderTree) (k : String) :
    Option Provider :=
  (findUpdRoots id k t.roots).map Prod.fst

/-- `ProviderTree.exists` (lines 387-396). -/
def ProviderTree.existsKey (t : ProviderTree) (k : String) : Bool :=
  (t.findWithLock k).isSome

/-- `ProviderTree.new_root` (lines 350-366): fail when `_find_with_lock`
locates anything under the proposed uuid (a name-or-uuid search), else
append a fresh root and return its uuid. -/
def ProviderTree.newRoot (t : ProviderTree) (name uuid : String)
    (generation : Option Int) : Except Err (ProviderTree × String) :=
  match t.findWithLock uuid with
  | some _ => .error .alreadyExists
  | none =>
    let p := Provider.make name uuid generation none
    .ok (⟨t.roots ++ [p]⟩, p.uuid)

/-- `ProviderTree.new_child` (lines 398-414): locate the parent by
name-or-uuid, attach a fresh child carrying the located parent's uuid, and
return the child's uuid.  `genUuid` models the value the UUID generator
would produce when `uuid` is `None`. -/
def ProviderTree.newChild (t : ProviderTree) (name parent : String)
    (uuid : Option String) (generation : Option Int) (genUuid : String) :
    Except Err (ProviderTree × String) :=
  let u := uuid.getD genUuid
  match findUpdRoots
      (fun par => par.addChild (Provider.make name u generation
        (some par.uuid)))
      parent t.roots with
  | none => .error .notFound
  | some q => .ok (⟨q.2⟩, u)

/-- Python truthiness of `found.parent_uuid`: `None` and the empty string
are falsy. -/
def optTruthy : Option String → Bool
  | none => false
  | some s => s ≠ ""

/-- `roots.remove(found)`: remove the first root equal to `found`
(CPython's `list.remove` raises `ValueError` when nothing matches). -/
def ProviderTree.removeRoot (t : ProviderTree) (found : Provider) :
    Except Err ProviderTree :=
  if t.roots.any (fun r => Provider.beq r found) then
    .ok ⟨t.roots.eraseP (fun r => Provider.beq r found)⟩
  else .error .notFound

/-- `ProviderTree._remove_with_lock` (lines 331-337): locate the node; if its
parent uuid is truthy, locate the parent and delete the child entry, else
remove it from the roots list. -/
def ProviderTree.removeWithLock (t : ProviderTree) (k : String) :
    Except Err ProviderTree :=
  match t.findWithLock k with
  | none => .error .notFound
  | some found =>
    if optTruthy found.parentUuid then
      match found.parentUuid with
      | none => .error .notFound  -- unreachable: truthy implies some
      | some pu =>
        match findUpdRoots (fun par => par.removeChild found) pu t.roots with
        | none => .error .notFound
        | some q => .ok ⟨q.2⟩
    else t.removeRoot found

/-- `ProviderTree.update_inventory` (lines 442-462): locate the provider and
delegate to `_Provider.update_inventory`. -/
def ProviderTree.updateInventory (t : ProviderTree) (k : String)
    (inv : Inventory) (generation : Option Int) :
    Except Err (ProviderTree × Bool) :=
  match findUpdRoots (fun p => (p.updateInventory inv generation).1)
      k t.roots with
  | none => .error .notFound
  | some q => .ok (⟨q.2⟩, (q.1.updateInventory inv generation).2)

/-- A provider dict as consumed by `populate_from_iterable` /
`_Provider.from_dict`: `uuid` is read unconditionally by the bulk loop;
`name` is read unconditionally by `from_dict` (KeyError when absent, hence
`Option`); `generation` and `parent_provider_uuid` are read with `.get`. -/
structure PDict where
  uuid : String
  name : Option String
  generation : Option Int
  parentProviderUuid : Option String
deriving DecidableEq

/-- `_Provider.from_dict` (lines 67-78): `pdict['name']` raises KeyError
when absent; the other keys are optional. -/
def fromDict (pd : PDict) : Except Err Provider :=
  match pd.name with
  | none => .error (.keyError "name")
  | some n =>
    .ok (Provider.make n pd.uuid pd.generation pd.parentProviderUuid)

/-- Python dict assignment `d[k] = v`: replace in place when the key exists,
append otherwise. -/
def dictInsert (d : List (String × PDict)) (k : String) (v : PDict) :
    List (String × PDict) :=
  if d.any (fun e => e.1 = k) then
    d.map fun e => if e.1 = k then (k, v) else e
  else d ++ [(k, v)]

/-- `{pd['uuid']: pd for pd in provider_dicts}` (line 269): first-occurrence
order, last-occurrence value. -/
def buildDict (pds : List PDict) : List (String × PDict) :=
  pds.foldl (fun d pd => dictInsert d pd.uuid pd) []

/-- Membership in `all_parents = {None} | set(to_add_by_uuid) | tree uuids`
(lines 275-279). -/
def parentOk (t : ProviderTree) (toAdd : List (String × PDict)) :
    Option String → Bool
  | none => true
  | some u => toAdd.any (fun e => e.1 = u) || t.uuids.contains u

/-- The orphan check of step 3 (lines 280-288): declared parents not found
in `all_parents`, deduplicated (the source collects them in a set). -/
def missingParents (t : ProviderTree) (toAdd : List (String × PDict)) :
    List String :=
  (toAdd.filterMap fun e =>
    match e.2.parentProviderUuid with
    | none => none
    | some u => if parentOk t toAdd (some u) then none else some u).dedup

/-- A descriptor is eligible for injection when its declared parent is not a
key of the remaining batch (line 300-302); a `None` parent is never a key. -/
def eligible (toAdd : List (String × PDict)) (e : String × PDict) : Bool :=
  match e.2.parentProviderUuid with
  | none => true
  | some pu => !(toAdd.any fun x => x.1 = pu)

/-- The `while to_add_by_uuid:` loop of `populate_from_iterable` (lines
293-329).  Returns the final tree state together with the error raised, if
any: the loop mutates the tree as it goes, so an error can leave a partially
populated tree behind.  The `for ... else` of the source scans the dict in
insertion order and breaks at the first eligible entry; exhausting a
non-empty dict raises the InternalInvariant guard. -/
def populateLoop (t : ProviderTree) (toAdd : List (String × PDict)) :
    ProviderTree × Option Err :=
  match h : toAdd.find? (eligible toAdd) with
  | none =>
    if toAdd.isEmpty then (t, none) else (t, some .internalInvariant)
  | some e =>
    -- try: self._remove_with_lock(uuid) / except ValueError: pass
    let t1 := match t.removeWithLock e.1 with
      | .ok t' => t'
      | .error _ => t
    match fromDict e.2 with
    | .error er => (t1, some er)
    | .ok provider =>
      match e.2.parentProviderUuid with
      | none =>
        populateLoop ⟨t1.roots ++ [provider]⟩
          (toAdd.eraseP fun x => decide (x.1 = e.1))
      | some pu =>
        match findUpdRoots (fun par => par.addChild provider) pu t1.roots with
        | none => (t1, some .notFound)
        | some q =>
          populateLoop ⟨q.2⟩ (toAdd.eraseP fun x => decide (x.1 = e.1))
termination_by toAdd.length
decreasing_by
  all_goals
    have hmem := List.mem_of_find?_eq_some h
    have hlen := List.length_eraseP_of_mem
      (p := fun x => decide (x.1 = e.1)) hmem (decide_eq_true rfl)
    have hpos : 0 < toAdd.length :=
      List.length_pos.mpr (by rintro rfl; simp at hmem)
    omega

/-- `ProviderTree.populate_from_iterable` (lines 248-329): empty input is a
no-op; build the uuid-keyed batch dict; run the orphan check; then the
injection loop.  The result is the final tree state paired with the raised
error, if any. -/
def ProviderTree.populateFromIterable (t : ProviderTree) (pds : List PDict) :
    ProviderTree × Option Err :=
  if pds.isEmpty then (t, none)
  else
    let toAdd := buildDict pds
    let missing := missingParents t toAdd
    if missing.isEmpty then populateLoop t toAdd
    else (t, some (.orphanInput missing))

/-! ### Basic lemmas about the forest listing -/

/-- Structural induction principle for the nested `Provider` type. -/
theorem Provider.inductionOn {motive : Provider → Prop}
    (h : ∀ u n g pu cs inv tr ag, (∀ c ∈ cs, motive c) →
      motive (.mk u n g pu cs inv tr ag)) :
    ∀ p, motive p
  | .mk u n g pu cs inv tr ag => by
    apply h
    intro c hc
    exact Provider.inductionOn h c
termination_by p => sizeOf p
decreasing_by
  simp_wf
  have := List.sizeOf_lt_of_mem hc
  omega

theorem Provider.nodeList_mk (u n g pu cs inv tr ag) :
    Provider.nodeList (.mk u n g pu cs inv tr ag) =
      .mk u n g pu cs inv tr ag :: Provider.nodeListL cs := by
  simp [Provider.nodeList]

theorem Provider.nodeList_eq (p : Provider) :
    p.nodeList = p :: Provider.nodeListL p.children := by
  cases p
  simp [Provider.nodeList, Provider.children]

theorem Provider.self_mem_nodeList (p : Provider) : p ∈ p.nodeList := by
  rw [Provider.nodeList_eq]
  exact List.mem_cons_self p _

theorem Provider.nodeListL_append (a b : List Provider) :
    Provider.nodeListL (a ++ b) =
      Provider.nodeListL a ++ Provider.nodeListL b := by
  induction a with
  | nil => simp [Provider.nodeListL]
  | cons c rest ih => simp [Provider.nodeListL, ih]

theorem Provider.mem_nodeListL_iff (x : Provider) (cs : List Provider) :
    x ∈ Provider.nodeListL cs ↔ ∃ c ∈ cs, x ∈ c.nodeList := by
  induction cs with
  | nil => simp [Provider.nodeListL]
  | cons c rest ih =>
    simp only [Provider.nodeListL, List.mem_append, ih, List.mem_cons]
    constructor
    · rintro (hx | ⟨c', hc', hx⟩)
      · exact ⟨c, Or.inl rfl, hx⟩
      · exact ⟨c', Or.inr hc', hx⟩
    · rintro ⟨c', hc' | hc', hx⟩
      · subst hc'
        exact Or.inl hx
      · exact Or.inr ⟨c', hc', hx⟩

theorem Provider.mem_nodeListL_of_mem {c : Provider} {cs : List Provider}
    (h : c ∈ cs) : c ∈ Provider.nodeListL cs :=
  (Provider.mem_nodeListL_iff c cs).mpr ⟨c, h, c.self_mem_nodeList⟩

/-- Transitivity of subtree membership: everything under a node of `p` is
under `p`. -/
theorem Provider.nodeList_trans (p : Provider) :
    ∀ q ∈ p.nodeList, ∀ x ∈ q.nodeList, x ∈ p.nodeList := by
  induction p using Provider.inductionOn with
  | h u n g pu cs inv tr ag ih =>
    intro q hq x hx
    rw [Provider.nodeList_mk] at hq ⊢
    rcases List.mem_cons.mp hq with rfl | hq
    · rw [Provider.nodeList_mk] at hx
      exact hx
    · rcases (Provider.mem_nodeListL_iff q cs).mp hq with ⟨c, hc, hqc⟩
      refine List.mem_cons_of_mem _ ?_
      exact (Provider.mem_nodeListL_iff x cs).mpr
        ⟨c, hc, ih c hc q hqc x hx⟩

theorem Provider.children_mem_nodeList {p c : Provider}
    (h : c ∈ p.children) : c ∈ p.nodeList := by
  rw [Provider.nodeList_eq]
  exact List.mem_cons_of_mem _ (Provider.mem_nodeListL_of_mem h)

/-! ### Uuid multisets of subtrees -/

/-- The multiset of uuids in a subtree (DFS list with multiplicity). -/
def uuidMS (p : Provider) : Multiset String :=
  ↑(p.nodeList.map Provider.uuid)

/-- The multiset of uuids in a forest. -/
def uuidMSL (cs : List Provider) : Multiset String :=
  ↑((Provider.nodeListL cs).map Provider.uuid)

theorem uuidMS_mk (u n g pu cs inv tr ag) :
    uuidMS (.mk u n g pu cs inv tr ag) = u ::ₘ uuidMSL cs := by
  simp [uuidMS, uuidMSL, Provider.nodeList_mk, Provider.uuid]

theorem uuidMSL_nil : uuidMSL [] = 0 := by
  simp [uuidMSL, Provider.nodeListL]

theorem uuidMSL_cons (c : Provider) (rest : List Provider) :
    uuidMSL (c :: rest) = uuidMS c + uuidMSL rest := by
  simp [uuidMSL, uuidMS, Provider.nodeListL]

theorem uuidMSL_append (a b : List Provider) :
    uuidMSL (a ++ b) = uuidMSL a + uuidMSL b := by
  simp [uuidMSL, Provider.nodeListL_append]

theorem mem_uuidMS_iff (p : Provider) (u : String) :
    u ∈ uuidMS p ↔ ∃ q ∈ p.nodeList, q.uuid = u := by
  simp [uuidMS]

theorem mem_uuidMSL_iff (cs : List Provider) (u : String) :
    u ∈ uuidMSL cs ↔ ∃ q ∈ Provider.nodeListL cs, q.uuid = u := by
  simp [uuidMSL]

theorem Provider.setChildren_uuidMS (p : Provider) (cs : List Provider) :
    uuidMS (p.setChildren cs) = p.uuid ::ₘ uuidMSL cs := by
  cases p
  simp [Provider.setChildren, uuidMS_mk, Provider.uuid]

theorem uuidMS_eq (p : Provider) :
    uuidMS p = p.uuid ::ₘ uuidMSL p.children := by
  cases p
  rw [uuidMS_mk]
  simp [Provider.uuid, Provider.children]

/-- `add_child` with a uuid not already among the children's subtrees simply
contributes the new child's subtree to the uuid multiset. -/
theorem Provider.addChild_uuidMS (p c : Provider)
    (h : ∀ x ∈ p.children, x.uuid ≠ c.uuid) :
    uuidMS (p.addChild c) = uuidMS p + uuidMS c := by
  have hany : p.children.any (fun x => x.uuid = c.uuid) = false := by
    simp only [List.any_eq_false, decide_eq_true_eq]
    exact h
  rw [Provider.addChild, hany]
  simp only [Bool.false_eq_true, if_false]
  rw [Provider.setChildren_uuidMS, uuidMSL_append, uuidMSL_cons, uuidMSL_nil,
    uuidMS_eq p]
  simp [Multiset.cons_add]

/-! ### Specifications of the locate-and-rebuild traversal -/

theorem updFirst_eq_none_iff (pred : Provider → Bool)
    (f : Provider → Provider) (cs : List Provider) :
    updFirst pred f cs = none ↔ ∀ c ∈ cs, ¬ pred c = true := by
  induction cs with
  | nil => simp [updFirst]
  | cons c rest ih =>
    rw [updFirst]
    by_cases hc : pred c
    · simp [hc]
    · simp [hc, Option.map_eq_none, ih]

theorem updFirst_some_spec (pred : Provider → Bool)
    (f : Provider → Provider) :
    ∀ (cs : List Provider) (n : Provider) (cs' : List Provider),
      updFirst pred f cs = some (n, cs') →
      pred n = true ∧ n ∈ cs ∧
        uuidMSL cs' + uuidMS n = uuidMSL cs + uuidMS (f n) := by
  intro cs
  induction cs with
  | nil => intro n cs' h; simp [updFirst] at h
  | cons c rest ih =>
    intro n cs' h
    rw [updFirst] at h
    by_cases hc : pred c
    · rw [if_pos hc] at h
      simp only [Option.some.injEq, Prod.mk.injEq] at h
      obtain ⟨rfl, rfl⟩ := h
      refine ⟨hc, List.mem_cons_self _ _, ?_⟩
      rw [uuidMSL_cons, uuidMSL_cons]
      abel
    · rw [if_neg hc] at h
      cases hrec : updFirst pred f rest with
      | none => rw [hrec] at h; simp at h
      | some q =>
        obtain ⟨n1, rest'⟩ := q
        rw [hrec, Option.map_some'] at h
        simp only [Option.some.injEq, Prod.mk.injEq] at h
        obtain ⟨rfl, rfl⟩ := h
        obtain ⟨hp, hm, hms⟩ := ih n1 rest' hrec
        refine ⟨hp, List.mem_cons_of_mem _ hm, ?_⟩
        rw [uuidMSL_cons, uuidMSL_cons, add_assoc, hms, add_assoc]

/-- The traversal hits something iff some node of the subtree matches the key
by name or uuid (independently of the transformation `f`). -/
theorem Provider.findUpd_isSome_iff (f : Provider → Provider) (k : String) :
    ∀ p : Provider,
      (Provider.findUpd f k p).isSome = true ↔
        ∃ q ∈ p.nodeList, q.name = k ∨ q.uuid = k := by
  intro p
  induction p using Provider.inductionOn with
  | h u n g pu cs inv tr ag ih =>
    have ihL : (Provider.findUpdL f k cs).isSome = true ↔
        ∃ q ∈ Provider.nodeListL cs, q.name = k ∨ q.uuid = k := by
      clear * - ih
      induction cs with
      | nil => simp [Provider.findUpdL, Provider.nodeListL]
      | cons c rest ihc =>
        have ihhd := ih c (List.mem_cons_self _ _)
        have ihtl := ihc fun x hx => ih x (List.mem_cons_of_mem _ hx)
        rw [Provider.findUpdL, Provider.nodeListL]
        by_cases hn : c.name = k
        · rw [if_pos hn]
          simp only [Option.isSome_some, true_iff]
          exact ⟨c, List.mem_append.mpr (Or.inl c.self_mem_nodeList),
            Or.inl hn⟩
        · rw [if_neg hn]
          cases hfc : Provider.findUpd f k c with
          | some q =>
            simp only [Option.isSome_some, true_iff]
            obtain ⟨q', hq', hm⟩ := ihhd.mp (by rw [hfc]; rfl)
            exact ⟨q', List.mem_append.mpr (Or.inl hq'), hm⟩
          | none =>
            have hnone : ¬ ∃ q ∈ c.nodeList, q.name = k ∨ q.uuid = k := by
              rw [← ihhd, hfc]
              simp
            simp only [Option.isSome_map', ihtl]
            constructor
            · rintro ⟨q, hq, hm⟩
              exact ⟨q, List.mem_append.mpr (Or.inr hq), hm⟩
            · rintro ⟨q, hq, hm⟩
              rcases List.mem_append.mp hq with hq | hq
              · exact absurd ⟨q, hq, hm⟩ hnone
              · exact ⟨q, hq, hm⟩
    rw [Provider.findUpd, Provider.nodeList_mk]
    by_cases hself : n = k ∨ u = k
    · rw [if_pos hself]
      simp only [Option.isSome_some, true_iff]
      refine ⟨.mk u n g pu cs inv tr ag, List.mem_cons_self _ _, ?_⟩
      simpa [Provider.name, Provider.uuid] using hself
    · rw [if_neg hself]
      cases hup : updFirst (fun c => decide (c.uuid = k)) f cs with
      | some q =>
        obtain ⟨n1, cs'⟩ := q
        obtain ⟨hp, hm, _⟩ := updFirst_some_spec _ f cs n1 cs' hup
        simp only [Option.isSome_some, true_iff]
        refine ⟨n1, List.mem_cons_of_mem _ (Provider.mem_nodeListL_of_mem hm),
          Or.inr (by simpa using hp)⟩
      | none =>
        simp only [Option.isSome_map', ihL]
        constructor
        · rintro ⟨q, hq, hm⟩
          exact ⟨q, List.mem_cons_of_mem _ hq, hm⟩
        · rintro ⟨q, hq, hm⟩
          rcases List.mem_cons.mp hq with rfl | hq
          · exact absurd (by simpa [Provider.name, Provider.uuid] using hm)
              hself
          · exact ⟨q, hq, hm⟩

theorem Provider.findUpd_eq_none_iff (f : Provider → Provider) (k : String)
    (p : Provider) :
    Provider.findUpd f k p = none ↔
      ∀ q ∈ p.nodeList, q.name ≠ k ∧ q.uuid ≠ k := by
  rw [← Option.not_isSome_iff_eq_none, Bool.not_eq_true,
    ← Bool.not_eq_true (Provider.findUpd f k p).isSome,
    Provider.findUpd_isSome_iff f k p]
  push_neg
  rfl

/-- When the traversal locates a node `m` it is a node of the subtree, and
the rebuilt subtree's uuid multiset is the old one with `m`'s contribution
replaced by that of `f m`. -/
theorem Provider.findUpd_some_spec (f : Provider → Provider) (k : String) :
    ∀ (p m p' : Provider), Provider.findUpd f k p = some (m, p') →
      m ∈ p.nodeList ∧ uuidMS p' + uuidMS m = uuidMS p + uuidMS (f m) := by
  intro p
  induction p using Provider.inductionOn with
  | h u n g pu cs inv tr ag ih =>
    have ihL : ∀ (m : Provider) (cs' : List Provider),
        Provider.findUpdL f k cs = some (m, cs') →
        m ∈ Provider.nodeListL cs ∧
          uuidMSL cs' + uuidMS m = uuidMSL cs + uuidMS (f m) := by
      clear * - ih
      induction cs with
      | nil => intro m cs' h; simp [Provider.findUpdL] at h
      | cons c rest ihc =>
        have ihhd := ih c (List.mem_cons_self _ _)
        have ihtl := ihc fun x hx => ih x (List.mem_cons_of_mem _ hx)
        intro m cs' h
        rw [Provider.findUpdL] at h
        by_cases hn : c.name = k
        · rw [if_pos hn] at h
          simp only [Option.some.injEq, Prod.mk.injEq] at h
          obtain ⟨rfl, rfl⟩ := h
          refine ⟨Provider.mem_nodeListL_of_mem (List.mem_cons_self _ _), ?_⟩
          rw [uuidMSL_cons, uuidMSL_cons]
          abel
        · rw [if_neg hn] at h
          cases hfc : Provider.findUpd f k c with
          | some q =>
            obtain ⟨m1, c'⟩ := q
            rw [hfc] at h
            simp only [Option.some.injEq, Prod.mk.injEq] at h
            obtain ⟨rfl, rfl⟩ := h
            obtain ⟨hm, hms⟩ := ihhd m1 c' hfc
            refine ⟨by
              rw [Provider.nodeListL]
              exact List.mem_append.mpr (Or.inl hm), ?_⟩
            rw [uuidMSL_cons, uuidMSL_cons, add_right_comm, hms, add_right_comm]
          | none =>
            rw [hfc] at h
            cases hrest : Provider.findUpdL f k rest with
            | none => rw [hrest] at h; simp at h
            | some q =>
              obtain ⟨m1, rest'⟩ := q
              rw [hrest, Option.map_some'] at h
              simp only [Option.some.injEq, Prod.mk.injEq] at h
              obtain ⟨rfl, rfl⟩ := h
              obtain ⟨hm, hms⟩ := ihtl m1 rest' hrest
              refine ⟨by
                rw [Provider.nodeListL]
                exact List.mem_append.mpr (Or.inr hm), ?_⟩
              rw [uuidMSL_cons, uuidMSL_cons, add_assoc, hms, add_assoc]
    intro m p' h
    rw [Provider.findUpd] at h
    by_cases hself : n = k ∨ u = k
    · rw [if_pos hself] at h
      simp only [Option.some.injEq, Prod.mk.injEq] at h
      obtain ⟨rfl, rfl⟩ := h
      exact ⟨(Provider.mk u n g pu cs inv tr ag).self_mem_nodeList,
        add_comm _ _⟩
    · rw [if_neg hself] at h
      cases hup : updFirst (fun c => decide (c.uuid = k)) f cs with
      | some q =>
        obtain ⟨m1, cs'⟩ := q
        rw [hup] at h
        simp only [Option.some.injEq, Prod.mk.injEq] at h
        obtain ⟨rfl, rfl⟩ := h
        obtain ⟨_, hm, hms⟩ := updFirst_some_spec _ f cs m1 cs' hup
        refine ⟨by
          rw [Provider.nodeList_mk]
          exact List.mem_cons_of_mem _ (Provider.mem_nodeListL_of_mem hm), ?_⟩
        rw [uuidMS_mk, uuidMS_mk, Multiset.cons_add, Multiset.cons_add, hms]
      | none =>
        rw [hup] at h
        cases hL : Provider.findUpdL f k cs with
        | none => rw [hL] at h; simp at h
        | some q =>
          obtain ⟨m1, cs'⟩ := q
          rw [hL, Option.map_some'] at h
          simp only [Option.some.injEq, Prod.mk.injEq] at h
          obtain ⟨rfl, rfl⟩ := h
          obtain ⟨hm, hms⟩ := ihL m1 cs' hL
          refine ⟨by
            rw [Provider.nodeList_mk]
            exact List.mem_cons_of_mem _ hm, ?_⟩
          rw [uuidMS_mk, uuidMS_mk, Multiset.cons_add, Multiset.cons_add, hms]

/-! ### Roots-level lookup specifications -/

theorem findUpdRoots_isSome_iff (f : Provider → Provider) (k : String) :
    ∀ rs : List Provider,
      (findUpdRoots f k rs).isSome = true ↔
        ∃ q ∈ Provider.nodeListL rs, q.name = k ∨ q.uuid = k := by
  intro rs
  induction rs with
  | nil => simp [findUpdRoots, Provider.nodeListL]
  | cons r rest ih =>
    rw [findUpdRoots, Provider.nodeListL]
    cases hfr : Provider.findUpd f k r with
    | some q =>
      simp only [Option.isSome_some, true_iff]
      obtain ⟨q', hq', hm⟩ := (Provider.findUpd_isSome_iff f k r).mp
        (by rw [hfr]; rfl)
      exact ⟨q', List.mem_append.mpr (Or.inl hq'), hm⟩
    | none =>
      have hnone : ¬ ∃ q ∈ r.nodeList, q.name = k ∨ q.uuid = k := by
        rw [← Provider.findUpd_isSome_iff f k r, hfr]
        simp
      simp only [Option.isSome_map', ih]
      constructor
      · rintro ⟨q, hq, hm⟩
        exact ⟨q, List.mem_append.mpr (Or.inr hq), hm⟩
      · rintro ⟨q, hq, hm⟩
        rcases List.mem_append.mp hq with hq | hq
        · exact absurd ⟨q, hq, hm⟩ hnone
        · exact ⟨q, hq, hm⟩

theorem findUpdRoots_eq_none_iff (f : Provider → Provider) (k : String)
    (rs : List Provider) :
    findUpdRoots f k rs = none ↔
      ∀ q ∈ Provider.nodeListL rs, q.name ≠ k ∧ q.uuid ≠ k := by
  rw [← Option.not_isSome_iff_eq_none, Bool.not_eq_true,
    ← Bool.not_eq_true (findUpdRoots f k rs).isSome,
    findUpdRoots_isSome_iff f k rs]
  push_neg
  rfl

theorem findUpdRoots_some_spec (f : Provider → Provider) (k : String) :
    ∀ (rs : List Provider) (m : Provider) (rs' : List Provider),
      findUpdRoots f k rs = some (m, rs') →
      m ∈ Provider.nodeListL rs ∧
        uuidMSL rs' + uuidMS m = uuidMSL rs + uuidMS (f m) := by
  intro rs
  induction rs with
  | nil => intro m rs' h; simp [findUpdRoots] at h
  | cons r rest ih =>
    intro m rs' h
    rw [findUpdRoots] at h
    cases hfr : Provider.findUpd f k r with
    | some q =>
      obtain ⟨m1, r'⟩ := q
      rw [hfr] at h
      simp only [Option.some.injEq, Prod.mk.injEq] at h
      obtain ⟨rfl, rfl⟩ := h
      obtain ⟨hm, hms⟩ := Provider.findUpd_some_spec f k r m1 r' hfr
      refine ⟨by
        rw [Provider.nodeListL]
        exact List.mem_append.mpr (Or.inl hm), ?_⟩
      rw [uuidMSL_cons, uuidMSL_cons, add_right_comm, hms, add_right_comm]
    | none =>
      rw [hfr] at h
      cases hrest : findUpdRoots f k rest with
      | none => rw [hrest] at h; simp at h
      | some q =>
        obtain ⟨m1, rest'⟩ := q
        rw [hrest, Option.map_some'] at h
        simp only [Option.some.injEq, Prod.mk.injEq] at h
        obtain ⟨rfl, rfl⟩ := h
        obtain ⟨hm, hms⟩ := ih m1 rest' hrest
        refine ⟨by
          rw [Provider.nodeListL]
          exact List.mem_append.mpr (Or.inr hm), ?_⟩
        rw [uuidMSL_cons, uuidMSL_cons, add_assoc, hms, add_assoc]

/-! ### Dictionary and inventory-comparison lemmas -/

theorem dget_isSome_iff {α : Type} (l : List (String × α)) (k : String) :
    (dget l k).isSome = true ↔ ∃ v, (k, v) ∈ l := by
  induction l with
  | nil => simp [dget]
  | cons e rest ih =>
    obtain ⟨k', v'⟩ := e
    rw [dget]
    by_cases hk : k' = k
    · subst hk
      simp
    · simp only [if_neg hk, ih, List.mem_cons, Prod.mk.injEq]
      constructor
      · rintro ⟨v, hv⟩
        exact ⟨v, Or.inr hv⟩
      · rintro ⟨v, ⟨hkk, _⟩ | hv⟩
        · exact absurd hkk.symm hk
        · exact ⟨v, hv⟩

theorem mem_of_dget_eq_some {α : Type} {l : List (String × α)} {k : String}
    {v : α} (h : dget l k = some v) : (k, v) ∈ l := by
  induction l with
  | nil => simp [dget] at h
  | cons e rest ih =>
    obtain ⟨k', v'⟩ := e
    rw [dget] at h
    by_cases hk : k' = k
    · rw [if_pos hk] at h
      obtain rfl := Option.some.inj h
      subst hk
      exact List.mem_cons_self _ _
    · rw [if_neg hk] at h
      exact List.mem_cons_of_mem _ (ih h)

theorem dget_eq_some_of_mem {α : Type} {l : List (String × α)} {k : String}
    {v : α} (hn : NodupKeys l) (h : (k, v) ∈ l) : dget l k = some v := by
  induction l with
  | nil => simp at h
  | cons e rest ih =>
    obtain ⟨k', v'⟩ := e
    rw [NodupKeys, List.map_cons, List.nodup_cons] at hn
    rw [dget]
    rcases List.mem_cons.mp h with heq | hmem
    · obtain ⟨rfl, rfl⟩ := Prod.mk.injEq .. ▸ heq
      simp
    · by_cases hk : k' = k
      · subst hk
        exact absurd (List.mem_map.mpr ⟨(k', v), hmem, rfl⟩) hn.1
      · rw [if_neg hk]
        exact ih hn.2 hmem

theorem sameKeySet_iff (a b : Inventory) :
    sameKeySet a b = true ↔
      ∀ k, (dget a k).isSome = true ↔ (dget b k).isSome = true := by
  rw [sameKeySet, Bool.and_eq_true, List.all_eq_true, List.all_eq_true]
  constructor
  · rintro ⟨hab, hba⟩ k
    constructor
    · intro ha
      obtain ⟨v, hv⟩ := (dget_isSome_iff a k).mp ha
      exact hab (k, v) hv
    · intro hb
      obtain ⟨v, hv⟩ := (dget_isSome_iff b k).mp hb
      exact hba (k, v) hv
  · intro h
    constructor
    · rintro ⟨k, v⟩ hv
      exact (h k).mp ((dget_isSome_iff a k).mpr ⟨v, hv⟩)
    · rintro ⟨k, v⟩ hv
      exact (h k).mpr ((dget_isSome_iff b k).mpr ⟨v, hv⟩)

theorem recordChanged_iff (rc rn : InvRecord) (hn : NodupKeys rc) :
    recordChanged rc rn = true ↔
      ∃ f vc vn, dget rc f = some vc ∧ dget rn f = some vn ∧ vc ≠ vn := by
  rw [recordChanged, List.any_eq_true]
  constructor
  · rintro ⟨⟨f, vc⟩, hmem, hval⟩
    cases hget : dget rn f with
    | none => rw [hget] at hval; simp at hval
    | some vn =>
      rw [hget] at hval
      simp only [decide_eq_true_eq] at hval
      exact ⟨f, vc, vn, dget_eq_some_of_mem hn hmem, hget, fun h =>
        hval h.symm⟩
  · rintro ⟨f, vc, vn, hc, hnn, hne⟩
    refine ⟨(f, vc), mem_of_dget_eq_some hc, ?_⟩
    rw [hnn]
    simpa using fun h => hne h.symm

/-- `has_inventory_changed` returns true exactly when the key sets differ or
some field present in both records of a shared resource class differs;
fields present in only one of the two records are never compared. -/
theorem hasInventoryChanged_iff (cur new : Inventory) (h1 : NodupKeys cur)
    (h2 : ∀ e ∈ cur, NodupKeys e.2) :
    hasInventoryChanged cur new = true ↔
      (¬ ∀ k, (dget cur k).isSome = true ↔ (dget new k).isSome = true) ∨
      ∃ k rc rn f vc vn, dget cur k = some rc ∧ dget new k = some rn ∧
        dget rc f = some vc ∧ dget rn f = some vn ∧ vc ≠ vn := by
  rw [hasInventoryChanged]
  by_cases hsk : sameKeySet cur new = true
  · rw [if_pos hsk]
    have hkeys := (sameKeySet_iff cur new).mp hsk
    rw [List.any_eq_true]
    constructor
    · rintro ⟨⟨k, rc⟩, hmem, hval⟩
      cases hget : dget new k with
      | none => rw [hget] at hval; simp at hval
      | some rn =>
        rw [hget] at hval
        obtain ⟨f, vc, vn, hf⟩ :=
          (recordChanged_iff rc rn (h2 (k, rc) hmem)).mp hval
        exact Or.inr ⟨k, rc, rn, f, vc, vn, dget_eq_some_of_mem h1 hmem,
          hget, hf⟩
    · rintro (hk | ⟨k, rc, rn, f, vc, vn, hc, hnn, hf⟩)
      · exact absurd hkeys hk
      · refine ⟨(k, rc), mem_of_dget_eq_some hc, ?_⟩
        rw [hnn]
        exact (recordChanged_iff rc rn
          (h2 (k, rc) (mem_of_dget_eq_some hc))).mpr ⟨f, vc, vn, hf⟩
  · rw [if_neg hsk]
    simp only [true_iff]
    exact Or.inl fun h => hsk ((sameKeySet_iff cur new).mpr h)

/-! ### Lemmas about the bulk-population loop -/

theorem fromDict_error {pd : PDict} {er : Err}
    (h : fromDict pd = .error er) : er = .keyError "name" := by
  rw [fromDict] at h
  cases hn : pd.name with
  | none => rw [hn] at h; exact (Except.error.inj h).symm
  | some n => rw [hn] at h; cases h

theorem fromDict_isOk_iff (pd : PDict) :
    (∃ p, fromDict pd = .ok p) ↔ pd.name.isSome = true := by
  rw [fromDict]
  cases hn : pd.name with
  | none => simp
  | some n => simp

/-- Every non-empty list has an entry minimizing a natural-valued measure. -/
theorem exists_min_entry {α : Type} (f : α → Nat) :
    ∀ l : List α, l ≠ [] → ∃ e ∈ l, ∀ x ∈ l, f e ≤ f x := by
  intro l
  induction l with
  | nil => intro h; exact absurd rfl h
  | cons a rest ih =>
    intro _
    rcases eq_or_ne rest [] with rfl | hne
    · exact ⟨a, List.mem_cons_self _ _, by simp⟩
    · obtain ⟨e, he, hmin⟩ := ih hne
      by_cases hle : f a ≤ f e
      · refine ⟨a, List.mem_cons_self _ _, ?_⟩
        intro x hx
        rcases List.mem_cons.mp hx with rfl | hx
        · exact le_refl _
        · exact le_trans hle (hmin x hx)
      · refine ⟨e, List.mem_cons_of_mem _ he, ?_⟩
        intro x hx
        rcases List.mem_cons.mp hx with rfl | hx
        · omega
        · exact hmin x hx

/-- The injection loop can only terminate cleanly or fail with the
InternalInvariant guard, a NotFound from attaching under a vanished parent,
or the KeyError of a nameless descriptor — never with OrphanInput. -/
theorem populateLoop_err (n : Nat) :
    ∀ (toAdd : List (String × PDict)), toAdd.length ≤ n →
    ∀ t : ProviderTree,
      (populateLoop t toAdd).2 = none ∨
      (populateLoop t toAdd).2 = some .internalInvariant ∨
      (populateLoop t toAdd).2 = some .notFound ∨
      (populateLoop t toAdd).2 = some (.keyError "name") := by
  induction n with
  | zero =>
    intro toAdd hlen t
    have : toAdd = [] := List.eq_nil_of_length_eq_zero (Nat.le_zero.mp hlen)
    subst this
    rw [populateLoop.eq_def]
    simp [List.find?]
  | succ n ih =>
    intro toAdd hlen t
    rw [populateLoop.eq_def]
    split
    · by_cases hemp : toAdd.isEmpty
      · simp [hemp]
      · simp [hemp]
    · next e h =>
      have hmem := List.mem_of_find?_eq_some h
      have hlen' : (toAdd.eraseP fun x => decide (x.1 = e.1)).length ≤ n := by
        have := List.length_eraseP_of_mem
          (p := fun x => decide (x.1 = e.1)) hmem (decide_eq_true rfl)
        have hpos : 0 < toAdd.length :=
          List.length_pos.mpr (by rintro rfl; simp at hmem)
        omega
      dsimp only
      cases hfd : fromDict e.2 with
      | error er =>
        obtain rfl := fromDict_error hfd
        simp
      | ok provider =>
        dsimp only
        cases hpar : e.2.parentProviderUuid with
        | none => exact ih _ hlen' _
        | some pu =>
          dsimp only
          cases hroots : findUpdRoots (fun par => par.addChild provider) pu
              (match t.removeWithLock e.1 with
                | .ok t' => t'
                | .error _ => t).roots with
          | none => simp
          | some q => exact ih _ hlen' _

/-- When the declared-parent relation among the remaining batch entries is
acyclic — witnessed by a rank function that decreases from child to parent —
the scan always finds an eligible entry, so the loop never trips the
InternalInvariant guard. -/
theorem populateLoop_no_internalInvariant (n : Nat) :
    ∀ (toAdd : List (String × PDict)), toAdd.length ≤ n →
    ∀ (t : ProviderTree) (rk : String → Nat),
      (∀ e ∈ toAdd, ∀ pu, e.2.parentProviderUuid = some pu →
        (toAdd.any fun x => x.1 = pu) = true → rk pu < rk e.1) →
      (populateLoop t toAdd).2 ≠ some .internalInvariant := by
  induction n with
  | zero =>
    intro toAdd hlen t rk hrk
    have : toAdd = [] := List.eq_nil_of_length_eq_zero (Nat.le_zero.mp hlen)
    subst this
    rw [populateLoop.eq_def]
    simp [List.find?]
  | succ n ih =>
    intro toAdd hlen t rk hrk
    rw [populateLoop.eq_def]
    split
    · next h =>
      by_cases hemp : toAdd.isEmpty
      · simp [hemp]
      · exfalso
        have hne : toAdd ≠ [] := by
          intro hcontra
          rw [hcontra] at hemp
          exact hemp rfl
        have hall := List.find?_eq_none.mp h
        obtain ⟨e0, he0, hmin⟩ := exists_min_entry (fun e => rk e.1) toAdd hne
        have hnel : ¬ eligible toAdd e0 = true := hall e0 he0
        rw [eligible] at hnel
        cases hpar : e0.2.parentProviderUuid with
        | none => rw [hpar] at hnel; exact hnel rfl
        | some pu =>
          rw [hpar] at hnel
          dsimp only at hnel
          have hany : (toAdd.any fun x => x.1 = pu) = true := by
            by_contra hca
            rw [Bool.not_eq_true] at hca
            rw [hca] at hnel
            exact hnel rfl
          obtain ⟨x, hx, hxeq⟩ := List.any_eq_true.mp hany
          have hlt := hrk e0 he0 pu hpar hany
          have hge := hmin x hx
          rw [of_decide_eq_true hxeq] at hge
          omega
    · next e h =>
      have hmem := List.mem_of_find?_eq_some h
      have hlen' : (toAdd.eraseP fun x => decide (x.1 = e.1)).length ≤ n := by
        have := List.length_eraseP_of_mem
          (p := fun x => decide (x.1 = e.1)) hmem (decide_eq_true rfl)
        have hpos : 0 < toAdd.length :=
          List.length_pos.mpr (by rintro rfl; simp at hmem)
        omega
      have hrk' : ∀ e' ∈ toAdd.eraseP fun x => decide (x.1 = e.1),
          ∀ pu, e'.2.parentProviderUuid = some pu →
          ((toAdd.eraseP fun x => decide (x.1 = e.1)).any
            fun x => x.1 = pu) = true → rk pu < rk e'.1 := by
        intro e' he' pu hpar hany
        have he'' : e' ∈ toAdd := (List.eraseP_sublist toAdd).subset he'
        obtain ⟨x, hx, hxeq⟩ := List.any_eq_true.mp hany
        have hx' : x ∈ toAdd := (List.eraseP_sublist toAdd).subset hx
        exact hrk e' he'' pu hpar (List.any_eq_true.mpr ⟨x, hx', hxeq⟩)
      dsimp only
      cases hfd : fromDict e.2 with
      | error er =>
        obtain rfl := fromDict_error hfd
        simp
      | ok provider =>
        dsimp only
        cases hpar : e.2.parentProviderUuid with
        | none => exact ih _ hlen' _ rk hrk'
        | some pu =>
          dsimp only
          cases hroots : findUpdRoots (fun par => par.addChild provider) pu
              (match t.removeWithLock e.1 with
                | .ok t' => t'
                | .error _ => t).roots with
          | none => simp
          | some q => exact ih _ hlen' _ rk hrk'

/-! ### Concrete objects for the specification scenarios -/

/-- S3: `{"VCPU": {"total": 8, "allocation_ratio": 16.0}}`. -/
def s3inv1 : Inventory :=
  [("VCPU", [("total", .int 8), ("allocation_ratio", .int 16)])]

/-- S3: `{"VCPU": {"total": 8}}`. -/
def s3inv2 : Inventory := [("VCPU", [("total", .int 8)])]

/-- S3: `{"VCPU": {"total": 9}}`. -/
def s3inv3 : Inventory := [("VCPU", [("total", .int 9)])]

/-- A tree holding the single root `cn1`/`u1` at generation 5. -/
def s3tree0 : ProviderTree := ⟨[Provider.make "cn1" "u1" (some 5) none]⟩

/-- The same root after storing `s3inv1` at generation 6. -/
def s3tree1 : ProviderTree :=
  ⟨[Provider.mk "u1" "cn1" (some 6) none [] s3inv1 [] []]⟩

/-- The same root after storing `s3inv3` at generation 6. -/
def s3tree3 : ProviderTree :=
  ⟨[Provider.mk "u1" "cn1" (some 6) none [] s3inv3 [] []]⟩

theorem Provider.updateGeneration_inventory (p : Provider) (g : Option Int) :
    (p.updateGeneration g).inventory = p.inventory := by
  cases g with
  | none => rfl
  | some v =>
    have heq : p.updateGeneration (some v) =
        if some v = p.generation then p else p.setGeneration (some v) := rfl
    rw [heq]
    by_cases hv : some v = p.generation
    · rw [if_pos hv]
    · rw [if_neg hv]
      cases p
      rfl

/-- C4: `has_inventory_changed` reports a change exactly when the key sets
differ or a field present in both the stored and the new record of a shared
resource class differs; a field present in only one record never triggers a
change.  In particular the S3 scenario: storing `s3inv1` reports a change;
re-sending `s3inv2` (shared field `total` unchanged, `allocation_ratio`
known only to the stored record) does not; sending `s3inv3` (`total`
changed) does. -/
theorem has_inventory_changed_spec (cur new : Inventory)
    (h1 : NodupKeys cur) (h2 : ∀ e ∈ cur, NodupKeys e.2) :
    (hasInventoryChanged cur new = true ↔
      (¬ ∀ k, (dget cur k).isSome = true ↔ (dget new k).isSome = true) ∨
      ∃ k rc rn f vc vn, dget cur k = some rc ∧ dget new k = some rn ∧
        dget rc f = some vc ∧ dget rn f = some vn ∧ vc ≠ vn) ∧
    s3tree0.updateInventory "u1" s3inv1 (some 6) = .ok (s3tree1, true) ∧
    s3tree1.updateInventory "u1" s3inv2 (some 6) = .ok (s3tree1, false) ∧
    s3tree1.updateInventory "u1" s3inv3 (some 6) = .ok (s3tree3, true) := by
  refine ⟨hasInventoryChanged_iff cur new h1 h2, ?_, ?_, ?_⟩ <;> rfl

/-- Witness instantiating `has_inventory_changed_spec` at the concrete S3
inventories. -/
theorem has_inventory_changed_spec_witness :
    s3tree1.updateInventory "u1" s3inv2 (some 6) = .ok (s3tree1, false) :=
  (has_inventory_changed_spec s3inv1 s3inv2 (by decide)
    (by decide)).2.2.1

/-- C10: when `update_inventory` reports no change, the stored inventory is
left exactly as it was — fields present only in the new records are
discarded, never merged. -/
theorem update_inventory_false_frame (p : Provider) (inv : Inventory)
    (g : Option Int) (h : (p.updateInventory inv g).2 = false) :
    (p.updateInventory inv g).1.inventory = p.inventory := by
  have heq : p.updateInventory inv g =
      if (p.updateGeneration g).hasInvChanged inv then
        ((p.updateGeneration g).setInventory inv, true)
      else (p.updateGeneration g, false) := rfl
  rw [heq] at h ⊢
  by_cases hc : (p.updateGeneration g).hasInvChanged inv = true
  · rw [if_pos hc] at h
    cases h
  · rw [if_neg hc]
    exact Provider.updateGeneration_inventory p g

/-- The provider used for the C10 witness: stored inventory `s3inv1`. -/
def c10prov : Provider := Provider.mk "u1" "cn1" (some 6) none [] s3inv1 [] []

/-- A new inventory carrying a `reserved` field unknown to the stored
record; the shared `total` field is unchanged. -/
def c10inv : Inventory :=
  [("VCPU", [("total", .int 8), ("reserved", .int 0)])]

/-- Witness for `update_inventory_false_frame`: the no-change update with a
new-only `reserved` field leaves the stored inventory untouched. -/
theorem update_inventory_false_frame_witness :
    (c10prov.updateInventory c10inv (some 6)).1.inventory =
      c10prov.inventory :=
  update_inventory_false_frame c10prov c10inv (some 6) (by decide)

/-! ### Lookup-order claims -/

/-- A root whose name is the key `k`. -/
def c9root1 : Provider := Provider.mk "u1" "k" none none [] [] [] []

/-- A later root whose identifier is the key `k`. -/
def c9root2 : Provider := Provider.mk "k" "r2" none none [] [] [] []

/-- The two-root forest for the C9 scenario. -/
def c9tree : ProviderTree := ⟨[c9root1, c9root2]⟩

/-- C9: whole-tree lookup scans roots in insertion order checking each
node's own name and identifier before descending, so the earlier root whose
name equals the key shadows the later root whose identifier equals it. -/
theorem find_name_shadows_identifier :
    (c9tree.findWithLock "k").map Provider.uuid = some "u1" ∧
    (∃ q ∈ c9tree.nodes, q.uuid = "k" ∧ q.name ≠ "k") := by decide

/-- Grandchild whose uuid is the key. -/
def c7g : Provider := Provider.mk "x" "G" none (some "c1") [] [] [] []

/-- First child of the root, carrying `c7g`. -/
def c7c1 : Provider := Provider.mk "c1" "C1" none (some "r") [c7g] [] [] []

/-- Second child of the root, whose name is the key. -/
def c7c2 : Provider := Provider.mk "c2" "x" none (some "r") [] [] [] []

/-- Root with children `c7c1` (hiding the deep uuid match) and `c7c2` (the
direct name match). -/
def c7root : Provider := Provider.mk "r" "R" none none [c7c1, c7c2] [] [] []

/-- Counterexample to C7 as stated: the claim says a direct child matching
by name is found before recursing into any child, but `find` interleaves —
it recurses fully into the first child (finding the grandchild with uuid
`x`) before ever looking at the second child named `x`. -/
theorem find_deep_before_sibling_name_counterexample :
    (c7root.find "x").map Provider.uuid = some "x" ∧
    (c7root.find "x").map Provider.uuid ≠ some "c2" ∧
    c7c2 ∈ c7root.children ∧ c7c2.name = "x" ∧ c7c2.uuid = "c2" :=
  ⟨by decide, by decide,
    show c7c2 ∈ [c7c1, c7c2] from
      List.mem_cons_of_mem _ (List.mem_cons_self _ _),
    by decide, by decide⟩

theorem findUpdL_skip_unmatched (f : Provider → Provider) (k : String) :
    ∀ (pre rest : List Provider),
      (∀ x ∈ pre, ∀ q ∈ x.nodeList, q.name ≠ k ∧ q.uuid ≠ k) →
      (Provider.findUpdL f k (pre ++ rest)).map Prod.fst =
        (Provider.findUpdL f k rest).map Prod.fst := by
  intro pre
  induction pre with
  | nil => intro rest _; rfl
  | cons x xs ih =>
    intro rest hpre
    have hx := hpre x (List.mem_cons_self _ _)
    have hxname : ¬ x.name = k :=
      (hx x x.self_mem_nodeList).1
    have hxnone : Provider.findUpd f k x = none :=
      (Provider.findUpd_eq_none_iff f k x).mpr hx
    rw [List.cons_append, Provider.findUpdL, if_neg hxname, hxnone,
      Option.map_map]
    have : (Prod.fst ∘ fun q : Provider × List Provider =>
        (q.1, x :: q.2)) = Prod.fst := rfl
    rw [this]
    exact ih rest fun y hy => hpre y (List.mem_cons_of_mem _ hy)

/-- C7, amended: after the self check and the direct children-by-uuid
lookup, the children are scanned in insertion order, and for each child in
turn the name check and the full recursive search of that child's subtree
both happen before the next sibling is considered (rather than all sibling
names being checked before any recursion). -/
theorem find_priority_order (p : Provider) (k : String)
    (pre post : List Provider) (c : Provider)
    (hch : p.children = pre ++ c :: post)
    (hname : p.name ≠ k) (huuid : p.uuid ≠ k)
    (hcuuid : ∀ x ∈ p.children, x.uuid ≠ k)
    (hpre : ∀ x ∈ pre, ∀ q ∈ x.nodeList, q.name ≠ k ∧ q.uuid ≠ k) :
    (c.name = k → p.find k = some c) ∧
    (c.name ≠ k → ∀ m, c.find k = some m → p.find k = some m) := by
  obtain ⟨u, n, g, pu, cs, inv, tr, ag⟩ := p
  simp only [Provider.children] at hch
  subst hch
  simp only [Provider.name, Provider.uuid] at hname huuid
  have hself : ¬(n = k ∨ u = k) := by
    rintro (h | h)
    · exact hname h
    · exact huuid h
  have hup : updFirst (fun x => decide (x.uuid = k)) id
      (pre ++ c :: post) = none := by
    rw [updFirst_eq_none_iff]
    intro x hx
    simp only [decide_eq_true_eq]
    exact hcuuid x hx
  have hfind : Provider.find (.mk u n g pu (pre ++ c :: post) inv tr ag) k =
      (Provider.findUpdL id k (c :: post)).map Prod.fst := by
    rw [Provider.find, Provider.findUpd, if_neg hself, hup, Option.map_map]
    have : (Prod.fst ∘ fun q : Provider × List Provider =>
        (q.1, Provider.mk u n g pu q.2 inv tr ag)) = Prod.fst := rfl
    rw [this]
    exact findUpdL_skip_unmatched id k pre (c :: post) hpre
  constructor
  · intro hcname
    rw [hfind, Provider.findUpdL, if_pos hcname]
    rfl
  · intro hcname m hm
    rw [Provider.find] at hm
    cases hfc : Provider.findUpd id k c with
    | none => rw [hfc] at hm; cases hm
    | some q =>
      rw [hfc, Option.map_some'] at hm
      obtain rfl := Option.some.inj hm
      rw [hfind, Provider.findUpdL, if_neg hcname, hfc]
      rfl

/-- Witness nodes for `find_priority_order`. -/
def c7wn1 : Provider := Provider.mk "w1" "W1" none none [] [] [] []

def c7wn2 : Provider := Provider.mk "w2" "k" none none [] [] [] []

def c7wp : Provider := Provider.mk "wr" "WR" none none [c7wn1, c7wn2] [] [] []

def c7wm : Provider := Provider.mk "wm" "k" none none [] [] [] []

def c7wn3 : Provider := Provider.mk "w3" "W3" none none [c7wm] [] [] []

def c7wp2 : Provider := Provider.mk "wr2" "WR2" none none [c7wn3] [] [] []

/-- Witness instantiating both conjuncts of `find_priority_order` on
concrete trees. -/
theorem find_priority_order_witness :
    c7wp.find "k" = some c7wn2 ∧ c7wp2.find "k" = some c7wm := by
  constructor
  · exact (find_priority_order c7wp "k" [c7wn1] [] c7wn2 rfl (by decide)
      (by decide) (by decide) (by decide)).1 (by decide)
  · exact (find_priority_order c7wp2 "k" [] [] c7wn3 rfl (by decide)
      (by decide) (by decide) (by decide)).2 (by decide) c7wm (by rfl)

/-! ### New-root claims -/

/-- A tree whose only root is named `a` with identifier `r`. -/
def c6tree : ProviderTree := ⟨[Provider.make "a" "r" (some 0) none]⟩

/-- Counterexample to C6 as stated: no provider has identifier `a`, so the
claim requires `new_root` to append a fresh root, yet the call fails — the
duplicate check resolves `a` against provider names as well. -/
theorem new_root_name_collision_counterexample :
    c6tree.newRoot "b" "a" (some 0) = .error .alreadyExists ∧
    (∀ q ∈ c6tree.nodes, q.uuid ≠ "a") := by
  constructor
  · rfl
  · decide

/-- C6, amended: `new_root` fails with AlreadyExists whenever the proposed
identifier resolves anywhere in the forest — by identifier, or equally by
name, since the duplicate check is a name-or-identifier search; when
nothing resolves it appends a fresh root with the given name, identifier
and generation (empty inventory, traits, aggregates), returns the
identifier, and leaves the pre-existing roots unchanged. -/
theorem new_root_spec (t : ProviderTree) (n u : String) (g : Option Int) :
    ((∃ q ∈ t.nodes, q.uuid = u) →
      t.newRoot n u g = .error .alreadyExists) ∧
    ((∀ q ∈ t.nodes, q.name ≠ u ∧ q.uuid ≠ u) →
      t.newRoot n u g = .ok (⟨t.roots ++ [Provider.make n u g none]⟩, u)) := by
  have heq : t.newRoot n u g =
      match t.findWithLock u with
      | some _ => .error .alreadyExists
      | none => .ok (⟨t.roots ++ [Provider.make n u g none]⟩,
          (Provider.make n u g none).uuid) := rfl
  constructor
  · rintro ⟨q, hq, hqu⟩
    have hsome : (findUpdRoots id u t.roots).isSome = true :=
      (findUpdRoots_isSome_iff id u t.roots).mpr ⟨q, hq, Or.inr hqu⟩
    rw [heq]
    rw [ProviderTree.findWithLock]
    cases hfind : findUpdRoots id u t.roots with
    | none => rw [hfind] at hsome; cases hsome
    | some qq => rfl
  · intro hall
    have hnone : findUpdRoots id u t.roots = none :=
      (findUpdRoots_eq_none_iff id u t.roots).mpr hall
    rw [heq, ProviderTree.findWithLock, hnone]
    rfl

/-- Witness instantiating both conjuncts of `new_root_spec`: the duplicate
root is rejected, and a fresh one is appended. -/
theorem new_root_spec_witness :
    c6tree.newRoot "c" "r" (some 1) = .error .alreadyExists ∧
    c6tree.newRoot "c" "z" (some 1) =
      .ok (⟨c6tree.roots ++ [Provider.make "c" "z" (some 1) none]⟩, "z") := by
  constructor
  · exact (new_root_spec c6tree "c" "r" (some 1)).1
      ⟨Provider.make "a" "r" (some 0) none,
        show _ ∈ [Provider.make "a" "r" (some 0) none] from
          List.mem_cons_self _ _, by decide⟩
  · exact (new_root_spec c6tree "c" "z" (some 1)).2 (by decide)

/-- C8: `new_root` fails with AlreadyExists when some provider's name equals
the proposed identifier, even though no provider has that identifier — the
duplicate check resolves through the name-or-identifier lookup. -/
theorem new_root_rejects_name_match (t : ProviderTree) (n u : String)
    (g : Option Int) (hname : ∃ q ∈ t.nodes, q.name = u)
    (hid : ∀ q ∈ t.nodes, q.uuid ≠ u) :
    t.newRoot n u g = .error .alreadyExists := by
  obtain ⟨q, hq, hqn⟩ := hname
  have hsome : (findUpdRoots id u t.roots).isSome = true :=
    (findUpdRoots_isSome_iff id u t.roots).mpr ⟨q, hq, Or.inl hqn⟩
  have heq : t.newRoot n u g =
      match t.findWithLock u with
      | some _ => .error .alreadyExists
      | none => .ok (⟨t.roots ++ [Provider.make n u g none]⟩,
          (Provider.make n u g none).uuid) := rfl
  rw [heq, ProviderTree.findWithLock]
  cases hfind : findUpdRoots id u t.roots with
  | none => rw [hfind] at hsome; cases hsome
  | some qq => rfl

/-- Witness for `new_root_rejects_name_match` on the concrete one-root
tree. -/
theorem new_root_rejects_name_match_witness :
    c6tree.newRoot "d" "a" none = .error .alreadyExists :=
  new_root_rejects_name_match c6tree "d" "a" none
    ⟨Provider.make "a" "r" (some 0) none,
      show _ ∈ [Provider.make "a" "r" (some 0) none] from
        List.mem_cons_self _ _, by decide⟩
    (by decide)

/-! ### Identifier-uniqueness claims -/

/-- The empty forest. -/
def emptyTree : ProviderTree := ⟨[]⟩

theorem nodeListL_trans (rs : List Provider) :
    ∀ q ∈ Provider.nodeListL rs, ∀ x ∈ q.nodeList,
      x ∈ Provider.nodeListL rs := by
  intro q hq x hx
  obtain ⟨rt, hrt, hqrt⟩ := (Provider.mem_nodeListL_iff q rs).mp hq
  exact (Provider.mem_nodeListL_iff x rs).mpr
    ⟨rt, hrt, Provider.nodeList_trans rt q hqrt x hx⟩

theorem ProviderTree.mem_uuids_iff (t : ProviderTree) (u : String) :
    u ∈ t.uuids ↔ ∃ q ∈ t.nodes, q.uuid = u := by
  rw [ProviderTree.uuids]
  simp [ProviderTree.nodes]

/-- Tree after `NewRoot("r1","u1")`. -/
def c3t1 : ProviderTree := ⟨[Provider.make "r1" "u1" none none]⟩

/-- Tree after a further `NewRoot("r2","u2")`. -/
def c3t2 : ProviderTree :=
  ⟨[Provider.make "r1" "u1" none none, Provider.make "r2" "u2" none none]⟩

/-- Tree after `NewChild("c","r2",uuid="u1")`: the identifier `u1` now
appears both on the first root and on the new child of the second root. -/
def c3t3 : ProviderTree :=
  ⟨[Provider.make "r1" "u1" none none,
    Provider.mk "u2" "r2" none none
      [Provider.make "c" "u1" none (some "u2")] [] [] []]⟩

/-- First root for the bulk-population duplicate: its NAME is `u`. -/
def c3pr1 : Provider := Provider.mk "x" "u" none none [] [] [] []

/-- Second root: its IDENTIFIER is `u`. -/
def c3pr2 : Provider := Provider.mk "u" "y" none none [] [] [] []

def c3ptree : ProviderTree := ⟨[c3pr1, c3pr2]⟩

/-- The tree left by populating `c3ptree` with `{uuid: "u", name: "n"}`:
removal-by-key deleted the root NAMED `u` instead of the one with
identifier `u`, so the identifier `u` is now duplicated. -/
def c3ptree' : ProviderTree := ⟨[c3pr2, Provider.make "n" "u" none none]⟩

/-- Counterexample to C3 as stated: `new_child` performs no duplicate check,
so a successful call with a caller-supplied identifier already in the forest
makes that identifier appear twice; bulk population can do the same when
removal-by-key resolves to a provider whose NAME equals the incoming
identifier. -/
theorem uuid_uniqueness_counterexample :
    emptyTree.newRoot "r1" "u1" none = .ok (c3t1, "u1") ∧
    c3t1.newRoot "r2" "u2" none = .ok (c3t2, "u2") ∧
    c3t2.newChild "c" "r2" (some "u1") none "g0" = .ok (c3t3, "u1") ∧
    c3t3.uuids.count "u1" = 2 ∧
    c3ptree.populateFromIterable [⟨"u", some "n", none, none⟩] =
      (c3ptree', none) ∧
    c3ptree'.uuids.count "u" = 2 := by
  refine ⟨rfl, rfl, rfl, by decide, ?_, by decide⟩
  rw [ProviderTree.populateFromIterable]
  norm_num [buildDict, dictInsert, missingParents, parentOk]
  rw [populateLoop.eq_def]
  split
  · next h => simp [List.find?, eligible] at h
  · next e h =>
    simp only [List.find?, eligible] at h
    rw [Option.some.injEq] at h
    subst h
    norm_num [fromDict, ProviderTree.removeWithLock, ProviderTree.findWithLock,
      findUpdRoots, Provider.findUpd, Provider.findUpdL, c3pr1, c3pr2,
      optTruthy, ProviderTree.removeRoot, Provider.beq, Provider.beqL,
      Provider.parentUuid, Provider.uuid, Provider.name, Provider.children,
      Provider.removeChild, Provider.setChildren, updFirst, List.eraseP,
      List.any]
    rw [populateLoop.eq_def]
    split
    · next h2 =>
      norm_num [c3ptree', Provider.make, c3pr2]
    · next e2 h2 => simp [List.find?] at h2

theorem Provider.make_uuid (n u : String) (g : Option Int)
    (pu : Option String) : (Provider.make n u g pu).uuid = u := rfl

theorem uuidMS_make (n u : String) (g : Option Int) (pu : Option String) :
    uuidMS (Provider.make n u g pu) = u ::ₘ 0 := by
  rw [Provider.make, uuidMS_mk, uuidMSL_nil]

theorem uuidMS_coe (t : ProviderTree) :
    (↑t.uuids : Multiset String) = uuidMSL t.roots := rfl

/-- C3, amended: identifier uniqueness is preserved by `new_root`
(unconditionally — its duplicate check rejects collisions) and by
`new_child` provided the identifier it installs does not already occur in
the forest; `new_child` itself performs no duplicate check, so a
caller-supplied identifier already present violates uniqueness, as can bulk
population under name/identifier key collisions. -/
theorem uuid_uniqueness_preserved :
    (∀ (t : ProviderTree) (n u : String) (g : Option Int)
        (t' : ProviderTree) (r : String),
      t.uuids.Nodup → t.newRoot n u g = .ok (t', r) → t'.uuids.Nodup) ∧
    (∀ (t : ProviderTree) (n pk : String) (u : Option String)
        (g : Option Int) (gu : String) (t' : ProviderTree) (r : String),
      t.uuids.Nodup → u.getD gu ∉ t.uuids →
      t.newChild n pk u g gu = .ok (t', r) → t'.uuids.Nodup) := by
  constructor
  · intro t n u g t' r hnd hok
    have heq : t.newRoot n u g =
        match t.findWithLock u with
        | some _ => .error .alreadyExists
        | none => .ok (⟨t.roots ++ [Provider.make n u g none]⟩,
            (Provider.make n u g none).uuid) := rfl
    rw [heq] at hok
    cases hf : t.findWithLock u with
    | some q => rw [hf] at hok; cases hok
    | none =>
      rw [hf] at hok
      have hpair := Except.ok.inj hok
      have ht'eq : t' = ⟨t.roots ++ [Provider.make n u g none]⟩ :=
        (congrArg Prod.fst hpair).symm
      have hfresh : u ∉ t.uuids := by
        intro hc
        obtain ⟨q, hq, hqu⟩ := (t.mem_uuids_iff u).mp hc
        have hnone : findUpdRoots id u t.roots = none :=
          Option.map_eq_none.mp hf
        exact ((findUpdRoots_eq_none_iff id u t.roots).mp hnone q hq).2 hqu
      subst ht'eq
      have huuids : (ProviderTree.mk
          (t.roots ++ [Provider.make n u g none])).uuids =
          t.uuids ++ [u] := by
        rw [ProviderTree.uuids, ProviderTree.nodes, Provider.nodeListL_append]
        rw [List.map_append]
        rfl
      rw [huuids, List.nodup_append]
      refine ⟨hnd, List.nodup_singleton u, ?_⟩
      intro a ha hb
      rw [List.mem_singleton] at hb
      subst hb
      exact hfresh ha
  · intro t n pk u g gu t' r hnd hfresh hok
    have heq : t.newChild n pk u g gu =
        match findUpdRoots
            (fun par => par.addChild (Provider.make n (u.getD gu) g
              (some par.uuid)))
            pk t.roots with
        | none => .error .notFound
        | some q => .ok (⟨q.2⟩, u.getD gu) := rfl
    rw [heq] at hok
    cases hf : findUpdRoots
        (fun par => par.addChild (Provider.make n (u.getD gu) g
          (some par.uuid)))
        pk t.roots with
    | none => rw [hf] at hok; cases hok
    | some q =>
      rw [hf] at hok
      obtain ⟨par, roots'⟩ := q
      have hpair := Except.ok.inj hok
      have ht'eq : t' = ⟨roots'⟩ := (congrArg Prod.fst hpair).symm
      subst ht'eq
      obtain ⟨hpar, hms⟩ := findUpdRoots_some_spec _ pk t.roots par roots' hf
      have hchfresh : ∀ x ∈ par.children,
          x.uuid ≠ (Provider.make n (u.getD gu) g (some par.uuid)).uuid := by
        intro x hx
        rw [Provider.make_uuid]
        intro hxc
        refine hfresh ?_
        rw [← hxc]
        exact List.mem_map.mpr
          ⟨x, nodeListL_trans t.roots par hpar x
            (Provider.children_mem_nodeList hx), rfl⟩
      rw [Provider.addChild_uuidMS par _ hchfresh, uuidMS_make] at hms
      have hroots' : uuidMSL roots' =
          (u.getD gu) ::ₘ uuidMSL t.roots := by
        have h1 : uuidMSL roots' + uuidMS par =
            ((u.getD gu) ::ₘ uuidMSL t.roots) + uuidMS par := by
          rw [hms]
          have : uuidMSL t.roots + (uuidMS par + (u.getD gu ::ₘ 0)) =
              ((u.getD gu) ::ₘ uuidMSL t.roots) + uuidMS par := by
            rw [Multiset.cons_add]
            have : uuidMS par + (u.getD gu ::ₘ 0) =
                u.getD gu ::ₘ uuidMS par := by
              rw [add_comm, Multiset.cons_add, zero_add]
            rw [this, Multiset.add_cons]
          rw [this]
        exact add_right_cancel h1
      have hnodup : ((ProviderTree.mk roots').uuids : Multiset String).Nodup := by
        rw [uuidMS_coe, hroots', Multiset.nodup_cons]
        constructor
        · intro hc
          rw [← uuidMS_coe t, Multiset.mem_coe] at hc
          exact hfresh hc
        · rw [← uuidMS_coe t, Multiset.coe_nodup]
          exact hnd
      rw [Multiset.coe_nodup] at hnodup
      exact hnodup

/-- Tree after adding a child with the fresh identifier `u9` under `r2`. -/
def c3t3f : ProviderTree :=
  ⟨[Provider.make "r1" "u1" none none,
    Provider.mk "u2" "r2" none none
      [Provider.make "c" "u9" none (some "u2")] [] [] []]⟩

/-- Witness instantiating both conjuncts of `uuid_uniqueness_preserved`. -/
theorem uuid_uniqueness_preserved_witness :
    c3t1.uuids.Nodup ∧ c3t3f.uuids.Nodup := by
  constructor
  · exact uuid_uniqueness_preserved.1 emptyTree "r1" "u1" none c3t1 "u1"
      (by decide) rfl
  · exact uuid_uniqueness_preserved.2 c3t2 "c" "r2" (some "u9") none "g0"
      c3t3f "u9" (by decide) (by decide) rfl

/-! ### Bulk-population claims -/

/-- A two-descriptor batch whose declared parents form a cycle: each parent
is the identifier of the other descriptor, so the step-3 orphan check
passes. -/
def c1pds : List PDict :=
  [⟨"b", some "nb", none, some "c"⟩, ⟨"c", some "nc", none, some "b"⟩]

/-- Counterexample to C1 as stated: for the cyclic batch the orphan check
(step 3) passes — every declared parent is the identifier of another
descriptor in the batch — yet `populate_from_iterable` does not succeed: it
reaches the InternalInvariant branch. -/
theorem populate_cycle_reaches_internal_invariant :
    missingParents emptyTree (buildDict c1pds) = [] ∧
    (emptyTree.populateFromIterable c1pds).2 = some .internalInvariant := by
  refine ⟨rfl, ?_⟩
  have h1 : emptyTree.populateFromIterable c1pds =
      populateLoop emptyTree (buildDict c1pds) := rfl
  have h2 : populateLoop emptyTree (buildDict c1pds) =
      (emptyTree, some .internalInvariant) := by
    conv_lhs => rw [populateLoop.eq_def]
    rfl
  rw [h1, h2]

/-- C1, amended: once the step-3 orphan check has passed AND the declared-
parent relation among the batch descriptors is acyclic (witnessed by a rank
function decreasing from each descriptor to its in-batch parent), the
InternalInvariant branch is unreachable, whatever the input ordering; with
an in-batch parent cycle the branch is reached. -/
theorem populate_acyclic_no_internal_invariant (t : ProviderTree)
    (pds : List PDict) (rk : String → Nat)
    (hrk : ∀ e ∈ buildDict pds, ∀ pu, e.2.parentProviderUuid = some pu →
      ((buildDict pds).any fun x => x.1 = pu) = true → rk pu < rk e.1) :
    (t.populateFromIterable pds).2 ≠ some .internalInvariant := by
  rw [ProviderTree.populateFromIterable]
  by_cases hemp : pds.isEmpty
  · rw [if_pos hemp]
    simp
  · rw [if_neg hemp]
    dsimp only
    by_cases hmiss : (missingParents t (buildDict pds)).isEmpty
    · rw [if_pos hmiss]
      exact populateLoop_no_internalInvariant (buildDict pds).length
        (buildDict pds) (le_refl _) t rk hrk
    · rw [if_neg hmiss]
      simp

/-- An acyclic out-of-order batch: the child `b` is declared before its
parent `a`. -/
def c1pdsW : List PDict :=
  [⟨"b", some "nb", none, some "a"⟩, ⟨"a", some "na", none, none⟩]

/-- Rank function witnessing acyclicity of `c1pdsW`. -/
def c1rk : String → Nat := fun s => if s = "b" then 1 else 0

/-- Witness instantiating `populate_acyclic_no_internal_invariant` on the
out-of-order acyclic batch. -/
theorem populate_acyclic_no_internal_invariant_witness :
    (emptyTree.populateFromIterable c1pdsW).2 ≠ some .internalInvariant :=
  populate_acyclic_no_internal_invariant emptyTree c1pdsW c1rk (by
    intro e he pu hpar hany
    have hbd : buildDict c1pdsW =
        [("b", ⟨"b", some "nb", none, some "a"⟩),
         ("a", ⟨"a", some "na", none, none⟩)] := rfl
    rw [hbd] at he
    rcases List.mem_cons.mp he with rfl | he
    · rw [Option.some.inj hpar.symm]
      decide
    · rcases List.mem_cons.mp he with rfl | he
      · cases hpar
      · cases he)

/-- Batch with one root and a two-cycle: the root gets injected before the
loop stalls on the cycle. -/
def c2pds : List PDict :=
  [⟨"a", some "na", none, none⟩,
   ⟨"b", some "nb", none, some "c"⟩,
   ⟨"c", some "nc", none, some "b"⟩]

/-- The partially populated tree left behind by the failing call. -/
def c2stub : ProviderTree := ⟨[Provider.make "na" "a" none none]⟩

/-- Counterexample to C2 as stated: the InternalInvariant raise is NOT
transactional — the root `a` was already injected when the loop stalled on
the cycle, so the tree observably differs from its pre-call state. -/
theorem populate_internal_invariant_mutates :
    (emptyTree.populateFromIterable c2pds).2 = some .internalInvariant ∧
    (emptyTree.populateFromIterable c2pds).1 ≠ emptyTree := by
  have h1 : emptyTree.populateFromIterable c2pds =
      populateLoop emptyTree (buildDict c2pds) := rfl
  have h2 : populateLoop emptyTree (buildDict c2pds) =
      populateLoop c2stub
        [("b", ⟨"b", some "nb", none, some "c"⟩),
         ("c", ⟨"c", some "nc", none, some "b"⟩)] := by
    conv_lhs => rw [populateLoop.eq_def]
    rfl
  have h3 : populateLoop c2stub
      [("b", ⟨"b", some "nb", none, some "c"⟩),
       ("c", ⟨"c", some "nc", none, some "b"⟩)] =
      (c2stub, some .internalInvariant) := by
    conv_lhs => rw [populateLoop.eq_def]
    rfl
  rw [h1, h2, h3]
  refine ⟨rfl, ?_⟩
  intro hcontra
  cases congrArg ProviderTree.roots hcontra

/-- C2, amended: bulk population is transactional for the validation
failure — whenever it raises OrphanInput the tree is exactly its pre-call
state (the raise precedes any mutation, and the injection loop can never
raise OrphanInput) — but an InternalInvariant raise from the loop can leave
a partial population behind. -/
theorem populate_orphan_input_atomic (t : ProviderTree) (pds : List PDict)
    (m : List String)
    (h : (t.populateFromIterable pds).2 = some (.orphanInput m)) :
    (t.populateFromIterable pds).1 = t := by
  rw [ProviderTree.populateFromIterable] at h ⊢
  by_cases hemp : pds.isEmpty
  · rw [if_pos hemp] at h
    cases h
  · rw [if_neg hemp] at h ⊢
    dsimp only at h ⊢
    by_cases hmiss : (missingParents t (buildDict pds)).isEmpty
    · rw [if_pos hmiss] at h
      exfalso
      rcases populateLoop_err (buildDict pds).length (buildDict pds)
          (le_refl _) t with h1 | h1 | h1 | h1 <;>
        · rw [h1] at h
          cases h
    · rw [if_neg hmiss]

/-- A batch whose declared parent resolves nowhere. -/
def c2pdsW : List PDict := [⟨"x", some "nx", none, some "missing"⟩]

/-- Witness for `populate_orphan_input_atomic`: the orphan batch leaves the
empty tree empty. -/
theorem populate_orphan_input_atomic_witness :
    (emptyTree.populateFromIterable c2pdsW).1 = emptyTree :=
  populate_orphan_input_atomic emptyTree c2pdsW ["missing"] rfl

/-- A descriptor carrying only an identifier — no name. -/
def c5pd : PDict := ⟨"a", none, none, none⟩

/-- Counterexample to C5 as stated: the nameless descriptor's parents all
resolve (it declares none), yet bulk population fails — `from_dict` reads
`pdict['name']` unconditionally, raising KeyError. -/
theorem populate_missing_name_counterexample :
    missingParents emptyTree (buildDict [c5pd]) = [] ∧
    (emptyTree.populateFromIterable [c5pd]).2 = some (.keyError "name") := by
  refine ⟨rfl, ?_⟩
  have h1 : emptyTree.populateFromIterable [c5pd] =
      populateLoop emptyTree (buildDict [c5pd]) := rfl
  have h2 : populateLoop emptyTree (buildDict [c5pd]) =
      (emptyTree, some (.keyError "name")) := by
    conv_lhs => rw [populateLoop.eq_def]
    rfl
  rw [h1, h2]

/-- C5, amended: descriptors must carry a name in addition to the
identifier — `from_dict` succeeds exactly when `name` is present
(generation and parent identifier remain optional), and a nameless
descriptor makes bulk population fail with KeyError; with names present a
batch populates successfully. -/
theorem populate_requires_name :
    (∀ pd : PDict, (∃ p, fromDict pd = .ok p) ↔ pd.name.isSome = true) ∧
    emptyTree.populateFromIterable [⟨"a", some "na", none, none⟩] =
      (⟨[Provider.make "na" "a" none none]⟩, none) := by
  refine ⟨fromDict_isOk_iff, ?_⟩
  have h1 : emptyTree.populateFromIterable [⟨"a", some "na", none, none⟩] =
      populateLoop emptyTree (buildDict [⟨"a", some "na", none, none⟩]) := rfl
  have h2 : populateLoop emptyTree (buildDict [⟨"a", some "na", none, none⟩]) =
      populateLoop ⟨[Provider.make "na" "a" none none]⟩ [] := by
    conv_lhs => rw [populateLoop.eq_def]
    rfl
  have h3 : populateLoop ⟨[Provider.make "na" "a" none none]⟩ [] =
      (⟨[Provider.make "na" "a" none none]⟩, none) := by
    conv_lhs => rw [populateLoop.eq_def]
    rfl
  rw [h1, h2, h3]
